import Mathlib

/-!
Verification of the heuristic classification and accessibility-metadata
synthesis core of the pdf-accessibility-toolkit scripts.

Text is modelled as `List Char` (a Python `str` is a sequence of unicode
scalar values).  Python string primitives used by the scripts
(`strip`, `split`, `lower`, `isupper`, `isdigit`, `endswith`, `in`,
`title`, `join`) are embedded below; the case model covers ASCII plus the
Latin-1 letter block, which contains every cased character appearing in
the scripts' keyword tables.
-/

namespace PdfToolkit

/-- Python whitespace for `str.strip` / `str.split` (space, tab, newline,
carriage return, vertical tab, form feed). -/
def pyIsSpace (c : Char) : Bool :=
  c = ' ' || c = '\t' || c = '\n' || c = '\r' || c = '\x0b' || c = '\x0c'

/-- Upper-case letter in the ASCII / Latin-1 model ('A'-'Z' plus U+00C0-U+00DE
without the multiplication sign U+00D7). -/
def isUpperAlpha (c : Char) : Bool :=
  ('A' ≤ c && c ≤ 'Z') || (0xC0 ≤ c.toNat && c.toNat ≤ 0xDE && c.toNat ≠ 0xD7)

/-- Lower-case letter in the ASCII / Latin-1 model ('a'-'z' plus U+00DF-U+00FF
without the division sign U+00F7). -/
def isLowerAlpha (c : Char) : Bool :=
  ('a' ≤ c && c ≤ 'z') || (0xDF ≤ c.toNat && c.toNat ≤ 0xFF && c.toNat ≠ 0xF7)

/-- `str.lower` on one character (ASCII / Latin-1 model: upper-case letters
move down by 32, everything else is unchanged). -/
def pyLowerChar (c : Char) : Char :=
  if isUpperAlpha c then Char.ofNat (c.toNat + 32) else c

/-- `str.upper` on one character, restricted to letters whose upper-case
form stays in Latin-1 (excludes the special cases ß and ÿ). -/
def pyUpperChar (c : Char) : Char :=
  if ('a' ≤ c && c ≤ 'z') || (0xE0 ≤ c.toNat && c.toNat ≤ 0xFE && c.toNat ≠ 0xF7) then
    Char.ofNat (c.toNat - 32)
  else c

/-- `str.lower` over a whole string. -/
def pyLower (l : List Char) : List Char := l.map pyLowerChar

/-- `str.strip()`: drop leading and trailing whitespace. -/
def pyStrip (l : List Char) : List Char :=
  (((l.dropWhile pyIsSpace).reverse.dropWhile pyIsSpace)).reverse

/-- `str.split()` with no argument: maximal non-whitespace runs, empties
discarded. -/
def pySplit (l : List Char) : List (List Char) :=
  (l.splitOnP pyIsSpace).filter (fun w => !w.isEmpty)

/-- `str.isupper()`: at least one cased character and no lower-case one. -/
def pyIsUpper (l : List Char) : Bool :=
  l.any (fun c => isUpperAlpha c || isLowerAlpha c) && l.all (fun c => !isLowerAlpha c)

/-- Python substring test `needle in haystack` (for non-empty needles). -/
def containsSub (needle : List Char) : List Char → Bool
  | [] => needle.isEmpty
  | c :: cs => needle.isPrefixOf (c :: cs) || containsSub needle cs

/-- `sep.join(parts)`. -/
def pyJoin (sep : List Char) : List (List Char) → List Char
  | [] => []
  | [x] => x
  | x :: y :: t => x ++ sep ++ pyJoin sep (y :: t)

/-- Helper for `str.title()`: the boolean records whether the previous
character was a letter. -/
def pyTitleAux : Bool → List Char → List Char
  | _, [] => []
  | prevCased, c :: cs =>
    let cased := isUpperAlpha c || isLowerAlpha c
    let c' := if cased then (if prevCased then pyLowerChar c else pyUpperChar c) else c
    c' :: pyTitleAux cased cs

/-- `str.title()`: first letter of every letter run upper-cased, the rest
lower-cased. -/
def pyTitle (l : List Char) : List Char := pyTitleAux false l

/-! ## Heading heuristics (`scripts/add_heading_tags.py`) -/

/-- The fixed multilingual keyword table of `detect_heading_heuristic`. -/
def heading_keywords : List (List Char) :=
  [("introduction").data, ("background").data, ("method").data, ("result").data,
   ("discussion").data, ("conclusion").data, ("summary").data, ("overview").data,
   ("chapter").data, ("section").data, ("föreläsning").data, ("introduktion").data,
   ("bakgrund").data, ("metod").data, ("resultat").data, ("diskussion").data,
   ("sammanfattning").data, ("översikt").data, ("kapitel").data]

/-- First character of the line, if any, satisfies `p`. -/
def headIs (p : Char → Bool) : List Char → Bool
  | [] => false
  | c :: _ => p c

/-- `detect_heading_heuristic(text)` from `add_heading_tags.py`:
reject long lines and lines with sentence-final punctuation, then accept on
all-caps, mostly-capitalised words, leading digit/bullet/hyphen, or a
keyword hit.  The fraction test `capitalized / len(words) > 0.6` is written
as `5 * capitalized > 3 * len(words)` (exact for the word counts that
occur; the float literal 0.6 rounds below 3/5, and quotients of small
naturals cannot fall in between). -/
def detect_heading_heuristic (text : List Char) : Bool :=
  if text.length > 100 then false
  else if text.getLast? = some '.' || text.getLast? = some ',' then false
  else if pyIsUpper text && text.length > 3 then true
  else
    let words := pySplit text
    let capitalized := words.countP (fun w => headIs isUpperAlpha w)
    if words.length > 1 && 5 * capitalized > 3 * words.length then true
    else if headIs (fun c => c.isDigit) text || headIs (fun c => c = '•') text
            || headIs (fun c => c = '-') text then true
    else if heading_keywords.any (fun kw => containsSub kw (pyLower text)) then true
    else false

/-- `estimate_heading_level(line, all_lines)` from `add_heading_tags.py`.
The second argument is accepted and ignored, exactly as in the source.
`line[1:2].isdigit()` is the test on the second character, false for a
one-character line (the empty slice is not a digit). -/
def estimate_heading_level (line : List Char) (all_lines : List (List Char)) : Nat :=
  if line.length < 30 && pyIsUpper line then 1
  else if headIs (fun c => c.isDigit) line && !(headIs (fun c => c.isDigit) (line.drop 1)) then 2
  else if !line.isEmpty && line.length > 2 && headIs (fun c => c.isDigit) line
          && (headIs (fun c => c = '.') (line.drop 1) || headIs (fun c => c = ')') (line.drop 1)
              || headIs (fun c => c = ':') (line.drop 1)) then 3
  else if line.length < 20 then 2
  else if line.length < 40 then 3
  else 4

/-- One record of `extract_text_with_fonts`. -/
structure TextBlock where
  id : Nat
  page : Nat
  text : List Char
  is_heading : Bool
  level : Nat
  char_count : Nat
  word_count : Nat
deriving DecidableEq

/-- Lines of one page as the scripts normalise them: split on newline,
strip each line, keep the non-empty ones. -/
def pageLines (p : List Char) : List (List Char) :=
  ((p.splitOn '\n').map pyStrip).filter (fun l => !l.isEmpty)

/-- The kept lines of every page, tagged with the 1-based page number and
with the raw (unstripped) line list of their page, which the source passes
to `estimate_heading_level`.  Pages whose text strips to nothing are
skipped, as in the source. -/
def linesWithPages (pages : List (List Char)) : List (Nat × List Char × List (List Char)) :=
  (pages.enum.map (fun pr =>
    if (pyStrip pr.2).isEmpty then []
    else (pageLines pr.2).map (fun l => (pr.1 + 1, l, pr.2.splitOn '\n')))).flatten

/-- `extract_text_with_fonts`, after the external text extraction: build a
block per kept line with a global 1-based running id. -/
def extract_text_blocks (pages : List (List Char)) : List TextBlock :=
  (linesWithPages pages).enum.map (fun e =>
    { id := e.1 + 1
      page := e.2.1
      text := e.2.2.1
      is_heading := detect_heading_heuristic e.2.2.1
      level := estimate_heading_level e.2.2.1 e.2.2.2
      char_count := e.2.2.1.length
      word_count := (pySplit e.2.2.1).length })

/-- One heading record of `identify_headings`. -/
structure Heading where
  page : Nat
  text : List Char
  level : Nat
  block_id : Nat
deriving DecidableEq

/-- `identify_headings`: keep the blocks flagged as headings. -/
def identify_headings (blocks : List TextBlock) : List Heading :=
  (blocks.filter (fun b => b.is_heading)).map
    (fun b => { page := b.page, text := b.text, level := b.level, block_id := b.id })

/-! ## A small regex engine (`analyze_and_tag_pdf.py`)

The patterns of `DOC_TYPE_PATTERNS` and `generate_content_tags` use only
literal characters, the word boundary `\b`, and the one-or-more classes
`\s+` and `\d+`; alternation appears only as a top-level choice of whole
words.  The engine below implements exactly these constructs with Python
`re` semantics (leftmost match, greedy classes with backtracking,
non-overlapping `findall` count that resumes at each match end). -/

/-- One token of a compiled pattern. -/
inductive Tok where
  | lit (c : Char)
  | wb
  | ws1
  | dig1
deriving DecidableEq

/-- Word character for `\b` (Python `\w`: ASCII letters, digits,
underscore; every non-ASCII character that occurs in the scripts' inputs
is a letter, so the model counts all of them as word characters). -/
def isWordChar (c : Char) : Bool :=
  ('a' ≤ c && c ≤ 'z') || ('A' ≤ c && c ≤ 'Z') || ('0' ≤ c && c ≤ '9')
    || c = '_' || c.toNat > 127

/-- A word boundary sits between the previous character (`none` at the
string start) and the next one (`none` at the end). -/
def isBoundary (prev : Option Char) (next : Option Char) : Bool :=
  (match prev with | none => false | some c => isWordChar c)
    ≠ (match next with | none => false | some c => isWordChar c)

/-- Worker for `matchLen`, driven by a fuel counter so that it is
structurally recursive and computes by kernel reduction.  Every recursive
call strictly decreases `s.length + ts.length`, so a starting fuel of
`s.length + ts.length + 1` never runs out. -/
def matchLenAux : Nat → List Tok → Option Char → List Char → Option Nat
  | 0, _, _, _ => none
  | _ + 1, [], _, _ => some 0
  | fuel + 1, .wb :: ts, prev, s =>
    if isBoundary prev s.head? then matchLenAux fuel ts prev s else none
  | _ + 1, .lit _ :: _, _, [] => none
  | fuel + 1, .lit c :: ts, _, d :: s =>
    if c = d then (matchLenAux fuel ts (some d) s).map (· + 1) else none
  | _ + 1, .ws1 :: _, _, [] => none
  | fuel + 1, .ws1 :: ts, _, d :: s =>
    if pyIsSpace d then
      match matchLenAux fuel (.ws1 :: ts) (some d) s with
      | some n => some (n + 1)
      | none => (matchLenAux fuel ts (some d) s).map (· + 1)
    else none
  | _ + 1, .dig1 :: _, _, [] => none
  | fuel + 1, .dig1 :: ts, _, d :: s =>
    if d.isDigit then
      match matchLenAux fuel (.dig1 :: ts) (some d) s with
      | some n => some (n + 1)
      | none => (matchLenAux fuel ts (some d) s).map (· + 1)
    else none

/-- Length of the greedy match of a token list at the start of `s`
(`prev` is the character just before `s`), `none` when there is no match.
`\s+` and `\d+` prefer the longer continuation and backtrack. -/
def matchLen (ts : List Tok) (prev : Option Char) (s : List Char) : Option Nat :=
  matchLenAux (s.length + ts.length + 1) ts prev s

/-- `re.search` from a given scan position. -/
def searchFrom (ts : List Tok) : Option Char → List Char → Bool
  | prev, s =>
    (matchLen ts prev s).isSome ||
      match s with
      | [] => false
      | d :: s' => searchFrom ts (some d) s'

/-- `re.search(pattern, s)` as a boolean. -/
def reSearch (ts : List Tok) (s : List Char) : Bool := searchFrom ts none s

/-- Last character of `taken`, or `prev` when nothing was taken. -/
def lastOr (prev : Option Char) (taken : List Char) : Option Char :=
  match taken.getLast? with
  | some c => some c
  | none => prev

/-- Worker for `countFrom`: fuel-driven structural recursion; every call
strictly decreases `s.length`, so a starting fuel of `s.length + 1` never
runs out. -/
def countFromAux (ts : List Tok) : Nat → Option Char → List Char → Nat
  | 0, _, _ => 0
  | _ + 1, prev, [] => if (matchLen ts prev []).isSome then 1 else 0
  | fuel + 1, prev, d :: s =>
    match matchLen ts prev (d :: s) with
    | some n =>
      let k := max n 1
      1 + countFromAux ts fuel (lastOr prev ((d :: s).take k)) ((d :: s).drop k)
    | none => countFromAux ts fuel (some d) s

/-- `len(re.findall(pattern, s))`: scan left to right, count each leftmost
match and resume right after its end (advancing at least one character). -/
def countFrom (ts : List Tok) (prev : Option Char) (s : List Char) : Nat :=
  countFromAux ts (s.length + 1) prev s

/-- `len(re.findall(pattern, s))` from the string start. -/
def reCount (ts : List Tok) (s : List Char) : Nat := countFrom ts none s

/-- Compile a literal word to tokens. -/
def lits (s : String) : List Tok := s.data.map Tok.lit

/-- `\bword\b`. -/
def wbWord (s : String) : List Tok := Tok.wb :: lits s ++ [Tok.wb]

/-- `\bword` (prefix pattern, no closing boundary). -/
def wbPre (s : String) : List Tok := Tok.wb :: lits s

/-! ## Document-type classification (`analyze_and_tag_pdf.py`) -/

/-- `DOC_TYPE_PATTERNS`, compiled.  Order is the source's insertion order,
which Python dicts preserve. -/
def DOC_TYPE_PATTERNS : List (String × List (List Tok)) :=
  [("lecture",
    [wbWord "lecture", wbWord "slide", wbWord "lesson",
     wbPre "chapter" ++ [Tok.ws1, Tok.dig1],
     wbWord "course", wbWord "syllabus", wbWord "semester",
     wbPre "föreläsning", wbPre "introduktion", wbWord "intro", wbWord "kurs",
     wbWord "vorlesung", wbWord "einführung",
     wbWord "cours", wbWord "conférence",
     wbWord "clase", wbWord "lección"]),
   ("instructions",
    [wbPre "instruction", Tok.wb :: lits "how" ++ [Tok.ws1] ++ lits "to" ++ [Tok.wb],
     wbWord "guide", wbWord "manual",
     wbPre "step" ++ [Tok.ws1, Tok.dig1], wbWord "procedure", wbWord "tutorial",
     wbPre "instruktion", wbWord "handledning", wbWord "guide",
     wbWord "anleitung", wbWord "handbuch",
     wbWord "manuel", wbWord "guide"]),
   ("workshop",
    [wbWord "workshop", wbWord "training", wbWord "exercise", wbPre "hands-on",
     wbWord "activity", wbWord "practical",
     wbWord "verkstad", wbPre "övning", wbWord "utbildning",
     wbWord "workshop", wbWord "übung",
     wbWord "atelier", wbWord "exercice"]),
   ("report",
    [wbWord "report", wbWord "analysis", wbWord "findings", wbWord "summary",
     wbWord "conclusion", wbWord "abstract",
     wbWord "rapport", wbWord "analys", wbWord "sammanfattning",
     wbWord "bericht", wbWord "analyse",
     wbWord "rapport", wbWord "analyse"]),
   ("form",
    [wbWord "form", wbWord "application", wbPre "fill" ++ [Tok.ws1] ++ lits "out",
     wbWord "submit", wbWord "signature",
     wbWord "formulär", wbWord "ansökan",
     wbWord "formular", wbWord "antrag",
     wbWord "formulaire"]),
   ("presentation",
    [wbWord "presentation", wbWord "slideshow", wbWord "overview", wbWord "agenda",
     wbWord "presentation", wbWord "översikt",
     wbWord "präsentation", wbWord "übersicht",
     wbWord "présentation"]),
   ("article",
    [wbWord "article", wbWord "paper", wbWord "journal", wbWord "publication",
     wbWord "research",
     wbWord "artikel", wbWord "uppsats", wbWord "forskning",
     wbWord "artikel", wbWord "forschung",
     wbWord "article", wbWord "recherche"]),
   ("brochure",
    [wbWord "brochure", wbWord "flyer", wbWord "pamphlet", wbWord "promotional",
     wbWord "broschyr", wbWord "flygblad",
     wbWord "broschüre", wbWord "flugblatt",
     wbWord "brochure", wbWord "prospectus"])]

/-- Summed `findall` count of one category's patterns over the lowered
text (`score += matches` in the source). -/
def contentScore (text_lower : List Char) (pats : List (List Tok)) : Nat :=
  (pats.map (fun p => reCount p text_lower)).sum

/-- Does any of a category's patterns `re.search`-match the lowered
filename? -/
def filenameMatches (filename_lower : List Char) (pats : List (List Tok)) : Bool :=
  pats.any (fun p => reSearch p filename_lower)

/-- The `scores` dict of `classify_document_type`: per category (in
insertion order) the summed content match count, keeping only the
positive entries (`if score > 0`). -/
def contentScores (text_lower : List Char) : List (String × Nat) :=
  DOC_TYPE_PATTERNS.filterMap (fun e =>
    let s := contentScore text_lower e.2
    if s > 0 then some (e.1, s) else none)

/-- `classify_document_type(text, filename)`: first category with a
filename match wins outright; otherwise the first category with the
maximal positive content score; otherwise `"document"`.  `max(scores,
key=scores.get)` returns the first key attaining the maximum in insertion
order, which the fold below reproduces. -/
def classify_document_type (text : List Char) (filename : List Char) : String :=
  let text_lower := pyLower text
  let filename_lower := pyLower filename
  match DOC_TYPE_PATTERNS.find? (fun e => filenameMatches filename_lower e.2) with
  | some e => e.1
  | none =>
    match contentScores text_lower with
    | [] => "document"
    | x :: xs => (xs.foldl (fun best y => if best.2 < y.2 then y else best) x).1

/-- `generate_content_tags(text, doc_type, is_slides)`: the document type,
the format tag, then conditional topic tags and a length tag.  Each
`tags.append` under an `if` becomes a conditional singleton. -/
def generate_content_tags (text : List Char) (doc_type : List Char) (is_slides : Bool) :
    List (List Char) :=
  let text_lower := pyLower text
  let word_count := (pySplit text).length
  [doc_type]
    ++ [if is_slides then ("slides").data else ("text-document").data]
    ++ (if [wbWord "diagram", wbWord "figure", wbWord "chart", wbWord "graph",
            wbWord "image"].any (fun p => reSearch p text_lower) then
          [("visual-content").data] else [])
    ++ (if [wbWord "table", wbWord "column", wbWord "row"].any
            (fun p => reSearch p text_lower) then
          [("tabular-data").data] else [])
    ++ (if [wbWord "code", wbWord "programming", wbWord "function", wbWord "class",
            wbWord "variable"].any (fun p => reSearch p text_lower) then
          [("technical-content").data] else [])
    ++ (if [wbWord "equation", wbWord "formula", wbWord "theorem", wbWord "proof"].any
            (fun p => reSearch p text_lower) then
          [("mathematical-content").data] else [])
    ++ (if [wbWord "reference", wbWord "citation", wbWord "bibliography"].any
            (fun p => reSearch p text_lower) then
          [("academic").data] else [])
    ++ (if word_count < 500 then [("brief").data]
        else if word_count > 5000 then [("comprehensive").data]
        else [])

/-! ## Language detection adapter (`analyze_and_tag_pdf.py`)

`detect`/`detect_langs` come from the external `langdetect` library and
are modelled as an oracle argument: `Except Unit r` is the outcome of the
wrapped call, `.error ()` standing for a raised `LangDetectException`.
Probabilities are rationals (the only value the claims mention, 1.0, is
exact). -/

/-- `detect_language(text)`.  Short or empty text never consults the
oracle; an oracle failure degrades to the same English default. -/
def detect_language (oracle : Except Unit (String × List (String × ℚ)))
    (text : List Char) : String × List (String × ℚ) :=
  if text.isEmpty || (pyStrip text).length < 10 then ("en", [("en", 1)])
  else
    match oracle with
    | .ok r => r
    | .error _ => ("en", [("en", 1)])

/-! ## Title synthesis (`analyze_and_tag_pdf.py`) -/

/-- The first-page part of `extract_title_from_pdf`: the first non-empty
stripped line of page one, if it is shorter than 100 characters. -/
def firstPageTitle (pages : List (List Char)) : Option (List Char) :=
  match pages with
  | [] => none
  | p :: _ =>
    match pageLines p with
    | [] => none
    | l :: _ => if l.length < 100 then some l else none

/-- `extract_title_from_pdf(reader, text)`: the embedded document-info
title when present and non-empty (Python truthiness), else the first-page
candidate.  `metaTitle` is `reader.metadata.title` (`none` when metadata
or its title is absent). -/
def extract_title_from_pdf (metaTitle : Option (List Char)) (pages : List (List Char)) :
    Option (List Char) :=
  match metaTitle with
  | some t => if t.isEmpty then firstPageTitle pages else some t
  | none => firstPageTitle pages

/-- The filename fallback of `analyze_pdf`:
`path.stem.replace('_', ' ').replace('-', ' ').title()`. -/
def stemTitle (stem : List Char) : List Char :=
  pyTitle (stem.map (fun c => if c = '_' || c = '-' then ' ' else c))

/-- `analysis["suggested_title"]` of `analyze_pdf`:
`title or <filename fallback>` (Python `or`: an empty extracted title
also falls through). -/
def suggested_title (metaTitle : Option (List Char)) (pages : List (List Char))
    (stem : List Char) : List Char :=
  match extract_title_from_pdf metaTitle pages with
  | some t => if t.isEmpty then stemTitle stem else t
  | none => stemTitle stem

/-! ## JSON round trip (`add_heading_tags.py`)

`main` exports headings with `json.dump(headings, f, indent=2,
ensure_ascii=False)` and `load_manual_headings` reads them back with
`json.load`.  The two stdlib functions are embedded below for the values
these files contain: arrays, string-keyed objects, strings and
non-negative integers (heading records hold a page number, a text and a
level).  The serializer reproduces `json.dump`'s `indent=2` layout and its
escaping (`ensure_ascii=False`: raw characters except `"`, `\` and
controls, the five short escapes, `\u00XX` for the other controls); the
parser is a recursive-descent reader of the same grammar with the JSON
whitespace set, driven by a fuel argument larger than the nesting depth of
its input. -/

/-- JSON values as these scripts exchange them. -/
inductive Json where
  | num (n : Nat)
  | str (s : List Char)
  | arr (items : List Json)
  | obj (pairs : List (List Char × Json))

/-- Decimal digit to character. -/
def digitCh : Nat → Char
  | 0 => '0' | 1 => '1' | 2 => '2' | 3 => '3' | 4 => '4'
  | 5 => '5' | 6 => '6' | 7 => '7' | 8 => '8' | _ => '9'

/-- Character to decimal digit. -/
def digitVal (c : Char) : Nat := c.toNat - 48

/-- Hexadecimal digit to character (lower case, as `json.dump` emits). -/
def hexCh (n : Nat) : Char :=
  if n < 10 then digitCh n else
    match n with
    | 10 => 'a' | 11 => 'b' | 12 => 'c' | 13 => 'd' | 14 => 'e' | _ => 'f'

/-- Character to hexadecimal digit, `none` for a non-hex character. -/
def hexVal (c : Char) : Option Nat :=
  if '0' ≤ c && c ≤ '9' then some (c.toNat - 48)
  else if 'a' ≤ c && c ≤ 'f' then some (c.toNat - 87)
  else if 'A' ≤ c && c ≤ 'F' then some (c.toNat - 55)
  else none

/-- `str(n)` for a natural number: big-endian decimal digits. -/
def natRepr (n : Nat) : List Char :=
  if n = 0 then ['0'] else ((Nat.digits 10 n).map digitCh).reverse

/-- Parse a maximal run of decimal digits (the caller has seen the first
digit, so the run is non-empty). -/
def parseNum (s : List Char) : Nat × List Char :=
  ((s.takeWhile Char.isDigit).foldl (fun a c => 10 * a + digitVal c) 0,
    s.dropWhile Char.isDigit)

/-- `json.dump`'s escape of one character under `ensure_ascii=False`. -/
def escChar (c : Char) : List Char :=
  if c = '"' then ['\\', '"']
  else if c = '\\' then ['\\', '\\']
  else if c = '\n' then ['\\', 'n']
  else if c = '\r' then ['\\', 'r']
  else if c = '\t' then ['\\', 't']
  else if c.toNat = 8 then ['\\', 'b']
  else if c.toNat = 12 then ['\\', 'f']
  else if c.toNat < 32 then ['\\', 'u', '0', '0', hexCh (c.toNat / 16), hexCh (c.toNat % 16)]
  else [c]

/-- Escape a whole string body. -/
def escStr : List Char → List Char
  | [] => []
  | c :: cs => escChar c ++ escStr cs

/-- Parse a string body up to the closing quote, undoing `escChar`;
returns the decoded body and the input after the quote. -/
def parseStrBody : List Char → Option (List Char × List Char)
  | [] => none
  | c :: rest =>
    if c = '"' then some ([], rest)
    else if c = '\\' then
      match rest with
      | [] => none
      | e :: r =>
        if e = '"' then (parseStrBody r).map (fun p => ('"' :: p.1, p.2))
        else if e = '\\' then (parseStrBody r).map (fun p => ('\\' :: p.1, p.2))
        else if e = '/' then (parseStrBody r).map (fun p => ('/' :: p.1, p.2))
        else if e = 'n' then (parseStrBody r).map (fun p => ('\n' :: p.1, p.2))
        else if e = 'r' then (parseStrBody r).map (fun p => ('\r' :: p.1, p.2))
        else if e = 't' then (parseStrBody r).map (fun p => ('\t' :: p.1, p.2))
        else if e = 'b' then (parseStrBody r).map (fun p => (Char.ofNat 8 :: p.1, p.2))
        else if e = 'f' then (parseStrBody r).map (fun p => (Char.ofNat 12 :: p.1, p.2))
        else if e = 'u' then
          match r with
          | h1 :: h2 :: h3 :: h4 :: r' =>
            match hexVal h1, hexVal h2, hexVal h3, hexVal h4 with
            | some a, some b, some c3, some d =>
              (parseStrBody r').map
                (fun p => (Char.ofNat (((a * 16 + b) * 16 + c3) * 16 + d) :: p.1, p.2))
            | _, _, _, _ => none
          | _ => none
        else none
    else (parseStrBody rest).map (fun p => (c :: p.1, p.2))

/-- `n` spaces. -/
def spaces (n : Nat) : List Char := List.replicate n ' '

mutual

/-- `json.dump(v, indent=2, ensure_ascii=False)` at nesting level `lvl`. -/
def dumpJson : Nat → Json → List Char
  | _, .num n => natRepr n
  | _, .str s => '"' :: escStr s ++ ['"']
  | _, .arr [] => ['[', ']']
  | lvl, .arr (x :: xs) =>
    '[' :: '\n' :: dumpItems (lvl + 1) x xs ++ '\n' :: spaces (2 * lvl) ++ [']']
  | _, .obj [] => ['\x7b', '\x7d']
  | lvl, .obj (p :: ps) =>
    '\x7b' :: '\n' :: dumpPairs (lvl + 1) p ps ++ '\n' :: spaces (2 * lvl) ++ ['\x7d']
termination_by _ j => sizeOf j
decreasing_by all_goals (simp_wf <;> omega)

/-- Array items, one per line at indent `2 * lvl`, separated by `",\n"`. -/
def dumpItems : Nat → Json → List Json → List Char
  | lvl, x, [] => spaces (2 * lvl) ++ dumpJson lvl x
  | lvl, x, y :: ys => spaces (2 * lvl) ++ dumpJson lvl x ++ ',' :: '\n' :: dumpItems lvl y ys
termination_by _ x xs => sizeOf x + sizeOf xs
decreasing_by all_goals (simp_wf <;> omega)

/-- Object pairs, one per line at indent `2 * lvl`, `": "` after the key,
separated by `",\n"`. -/
def dumpPairs : Nat → List Char × Json → List (List Char × Json) → List Char
  | lvl, (k, v), [] =>
    spaces (2 * lvl) ++ '"' :: escStr k ++ '"' :: ':' :: ' ' :: dumpJson lvl v
  | lvl, (k, v), q :: qs =>
    spaces (2 * lvl) ++ '"' :: escStr k ++ '"' :: ':' :: ' ' :: dumpJson lvl v
      ++ ',' :: '\n' :: dumpPairs lvl q qs
termination_by _ kv qs => sizeOf kv + sizeOf qs
decreasing_by all_goals (simp_wf <;> omega)

end

/-- JSON whitespace (`json.load` skips space, tab, newline, return). -/
def jsonWs (c : Char) : Bool := c = ' ' || c = '\t' || c = '\n' || c = '\r'

/-- Skip JSON whitespace. -/
def skipWs (s : List Char) : List Char := s.dropWhile jsonWs

mutual

/-- Parse one JSON value; returns it with the unconsumed input.  `fuel`
bounds the recursion depth and only decreases on nested calls. -/
def parseVal : Nat → List Char → Option (Json × List Char)
  | 0, _ => none
  | fuel + 1, s =>
    match skipWs s with
    | [] => none
    | c :: rest =>
      if c = '"' then (parseStrBody rest).map (fun p => (Json.str p.1, p.2))
      else if c = '[' then
        match skipWs rest with
        | [] => none
        | d :: r =>
          if d = ']' then some (Json.arr [], r)
          else (parseItems fuel (d :: r)).map (fun p => (Json.arr p.1, p.2))
      else if c = '\x7b' then
        match skipWs rest with
        | [] => none
        | d :: r =>
          if d = '\x7d' then some (Json.obj [], r)
          else (parsePairs fuel (d :: r)).map (fun p => (Json.obj p.1, p.2))
      else if c.isDigit then
        some (Json.num (parseNum (c :: rest)).1, (parseNum (c :: rest)).2)
      else none

/-- Parse `value (',' value)* ']'` inside a non-empty array. -/
def parseItems : Nat → List Char → Option (List Json × List Char)
  | 0, _ => none
  | fuel + 1, s =>
    match parseVal fuel s with
    | none => none
    | some (v, s1) =>
      match skipWs s1 with
      | [] => none
      | c :: r =>
        if c = ',' then (parseItems fuel r).map (fun p => (v :: p.1, p.2))
        else if c = ']' then some ([v], r)
        else none

/-- Parse `'"' key '"' ':' value (',' ...)* '}'` inside a non-empty
object. -/
def parsePairs : Nat → List Char → Option (List (List Char × Json) × List Char)
  | 0, _ => none
  | fuel + 1, s =>
    match skipWs s with
    | [] => none
    | c :: rest =>
      if c = '"' then
        match parseStrBody rest with
        | none => none
        | some (k, s1) =>
          match skipWs s1 with
          | [] => none
          | c2 :: s2 =>
            if c2 = ':' then
              match parseVal fuel s2 with
              | none => none
              | some (v, s3) =>
                match skipWs s3 with
                | [] => none
                | c3 :: r =>
                  if c3 = ',' then (parsePairs fuel r).map (fun p => ((k, v) :: p.1, p.2))
                  else if c3 = '\x7d' then some ([(k, v)], r)
                  else none
            else none
      else none

end

/-- `json.load`: parse one value (with fuel ample for any input of this
length) and require only whitespace after it. -/
def jsonParse (s : List Char) : Option Json :=
  match parseVal (s.length + 1) s with
  | some (v, rest) => if (skipWs rest).isEmpty then some v else none
  | none => none

/-- `load_manual_headings`, after the file read: `json.load` of the file
contents. -/
def load_manual_headings (contents : List Char) : Option Json :=
  jsonParse contents

/-- A heading record as the spec's exchange format `{page, text, level}`
fixes it. -/
structure HRec where
  page : Nat
  text : List Char
  level : Nat

/-- The JSON value a heading record is written as: keys in the source's
insertion order. -/
def hrecToJson (h : HRec) : Json :=
  .obj [(("page").data, .num h.page), (("text").data, .str h.text),
        (("level").data, .num h.level)]

/-- The `--export-headings` write of `main`:
`json.dump(headings, f, indent=2, ensure_ascii=False)`. -/
def export_headings (headings : List HRec) : List Char :=
  dumpJson 0 (.arr (headings.map hrecToJson))

/-! # Theorems -/

/-! ## Helper lemmas: Python string model -/

theorem length_dropWhile_le (p : Char → Bool) (l : List Char) :
    (l.dropWhile p).length ≤ l.length :=
  (List.dropWhile_suffix p).sublist.length_le

theorem pyStrip_length_le (l : List Char) : (pyStrip l).length ≤ l.length := by
  unfold pyStrip
  calc (((l.dropWhile pyIsSpace).reverse.dropWhile pyIsSpace)).reverse.length
      = ((l.dropWhile pyIsSpace).reverse.dropWhile pyIsSpace).length :=
        List.length_reverse _
    _ ≤ (l.dropWhile pyIsSpace).reverse.length := length_dropWhile_le _ _
    _ = (l.dropWhile pyIsSpace).length := List.length_reverse _
    _ ≤ l.length := length_dropWhile_le _ _

theorem pyJoin_cons_cons (sep a b : List Char) (t : List (List Char)) :
    pyJoin sep (a :: b :: t) = a ++ sep ++ pyJoin sep (b :: t) := rfl

/-! ## Helper lemmas: heading heuristics -/

theorem estimate_heading_level_cases (line : List Char) (all_lines : List (List Char)) :
    estimate_heading_level line all_lines = 1 ∨ estimate_heading_level line all_lines = 2 ∨
    estimate_heading_level line all_lines = 3 ∨ estimate_heading_level line all_lines = 4 := by
  unfold estimate_heading_level
  split_ifs <;> simp

theorem estimate_heading_level_range (line : List Char) (all_lines : List (List Char)) :
    1 ≤ estimate_heading_level line all_lines ∧ estimate_heading_level line all_lines ≤ 6 := by
  rcases estimate_heading_level_cases line all_lines with h | h | h | h <;> rw [h] <;> omega

theorem detect_heading_reject (text : List Char)
    (h : text.length > 100 ∨ text.getLast? = some '.' ∨ text.getLast? = some ',') :
    detect_heading_heuristic text = false := by
  unfold detect_heading_heuristic
  by_cases h1 : text.length > 100
  · rw [if_pos h1]
  · rw [if_neg h1]
    rcases h with h | h | h
    · exact absurd h h1
    · rw [if_pos (by simp [h])]
    · rw [if_pos (by simp [h])]

theorem identify_headings_level (pages : List (List Char)) (h : Heading)
    (hm : h ∈ identify_headings (extract_text_blocks pages)) :
    1 ≤ h.level ∧ h.level ≤ 6 := by
  unfold identify_headings at hm
  rcases List.mem_map.mp hm with ⟨b, hb, rfl⟩
  rcases List.mem_filter.mp hb with ⟨hbmem, _⟩
  unfold extract_text_blocks at hbmem
  rcases List.mem_map.mp hbmem with ⟨e, _, rfl⟩
  exact estimate_heading_level_range e.2.2.1 e.2.2.2

theorem generate_content_tags_cons (text dt : List Char) (s : Bool) :
    ∃ rest, generate_content_tags text dt s
      = dt :: (if s then ("slides").data else ("text-document").data) :: rest := by
  unfold generate_content_tags
  exact ⟨_, rfl⟩

/-! ## Helper lemmas: document-type classification -/

theorem foldl_pickMax_eq (z : String × Nat) (xs : List (String × Nat)) :
    ∀ (x : String × Nat),
      (z = x ∨ z ∈ xs) → (∀ y ∈ xs, y ≠ z → y.2 < z.2) → (x ≠ z → x.2 < z.2) →
      xs.foldl (fun best y => if best.2 < y.2 then y else best) x = z := by
  induction xs with
  | nil =>
    intro x hz _ _
    rcases hz with rfl | h
    · rfl
    · simp at h
  | cons y ys ih =>
    intro x hz hxs hx
    simp only [List.foldl_cons]
    have hy : y ≠ z → y.2 < z.2 := hxs y (List.mem_cons_self _ _)
    by_cases hcmp : x.2 < y.2
    · rw [if_pos hcmp]
      refine ih y ?_ (fun w hw => hxs w (List.mem_cons_of_mem _ hw)) hy
      rcases hz with rfl | hz
      · by_cases hyz : y = z
        · exact Or.inl hyz.symm
        · exact absurd (hy hyz) (by omega)
      · rcases List.mem_cons.mp hz with rfl | hz
        · exact Or.inl rfl
        · exact Or.inr hz
    · rw [if_neg hcmp]
      refine ih x ?_ (fun w hw => hxs w (List.mem_cons_of_mem _ hw)) hx
      rcases hz with rfl | hz
      · exact Or.inl rfl
      · rcases List.mem_cons.mp hz with rfl | hz
        · by_cases hxz : x = z
          · exact Or.inl hxz.symm
          · exact absurd (hx hxz) (by omega)
        · exact Or.inr hz

theorem mem_contentScores (tl : List Char) (y : String × Nat) :
    y ∈ contentScores tl ↔
      ∃ e ∈ DOC_TYPE_PATTERNS, 0 < contentScore tl e.2 ∧ y = (e.1, contentScore tl e.2) := by
  unfold contentScores
  rw [List.mem_filterMap]
  constructor
  · rintro ⟨e, he, hfe⟩
    dsimp only at hfe
    by_cases hp : contentScore tl e.2 > 0
    · rw [if_pos hp] at hfe
      exact ⟨e, he, hp, (Option.some.injEq _ _ ▸ hfe).symm⟩
    · rw [if_neg hp] at hfe
      cases hfe
  · rintro ⟨e, he, hp, rfl⟩
    exact ⟨e, he, by simp only [if_pos hp]⟩

theorem contentScores_eq_nil (tl : List Char)
    (hz : ∀ e ∈ DOC_TYPE_PATTERNS, contentScore tl e.2 = 0) : contentScores tl = [] := by
  unfold contentScores
  refine List.filterMap_eq_nil_iff.mpr (fun e he => ?_)
  dsimp only
  rw [hz e he]
  rfl

theorem doc_type_names_nodup : (DOC_TYPE_PATTERNS.map Prod.fst).Nodup := by decide

theorem doc_type_entry_unique {e e' : String × List (List Tok)}
    (he : e ∈ DOC_TYPE_PATTERNS) (he' : e' ∈ DOC_TYPE_PATTERNS) (h : e.1 = e'.1) : e = e' :=
  List.inj_on_of_nodup_map doc_type_names_nodup he he' h

theorem exists_other_category (e : String × List (List Tok)) (_ : e ∈ DOC_TYPE_PATTERNS) :
    ∃ e' ∈ DOC_TYPE_PATTERNS, e'.1 ≠ e.1 := by
  by_cases h : e.1 = "lecture"
  · refine ⟨DOC_TYPE_PATTERNS.get ⟨1, by decide⟩, List.get_mem _ _ _, ?_⟩
    rw [h]
    decide
  · exact ⟨DOC_TYPE_PATTERNS.get ⟨0, by decide⟩, List.get_mem _ _ _, fun hh => h hh.symm⟩

theorem pageLines_head_not_empty (p l : List Char) (ls : List (List Char))
    (h : pageLines p = l :: ls) : l.isEmpty = false := by
  have hm : l ∈ pageLines p := h ▸ List.mem_cons_self l ls
  unfold pageLines at hm
  simpa using (List.mem_filter.mp hm).2

/-! ## Claim theorems: heading heuristics and simple adapters -/

/-- C4: when no category's pattern matches the filename,
`classify_document_type` returns the category with the strictly highest
summed content match count over the lowered text, and returns "document"
when every category's count is zero. -/
theorem c4_content_argmax (text filename : List Char)
    (hfn : ∀ e ∈ DOC_TYPE_PATTERNS, filenameMatches (pyLower filename) e.2 = false) :
    ((∀ e ∈ DOC_TYPE_PATTERNS, contentScore (pyLower text) e.2 = 0) →
      classify_document_type text filename = "document") ∧
    (∀ e ∈ DOC_TYPE_PATTERNS,
      (∀ e' ∈ DOC_TYPE_PATTERNS, e'.1 ≠ e.1 →
        contentScore (pyLower text) e'.2 < contentScore (pyLower text) e.2) →
      classify_document_type text filename = e.1) := by
  have hfind :
      DOC_TYPE_PATTERNS.find? (fun e => filenameMatches (pyLower filename) e.2) = none :=
    List.find?_eq_none.mpr (fun x hx => by simp [hfn x hx])
  constructor
  · intro hz
    simp only [classify_document_type, hfind, contentScores_eq_nil (pyLower text) hz]
  · intro e he hstrict
    simp only [classify_document_type, hfind]
    obtain ⟨e0, he0, hne0⟩ := exists_other_category e he
    have hpos : 0 < contentScore (pyLower text) e.2 :=
      lt_of_le_of_lt (Nat.zero_le _) (hstrict e0 he0 hne0)
    have hzmem : (e.1, contentScore (pyLower text) e.2) ∈ contentScores (pyLower text) :=
      (mem_contentScores _ _).mpr ⟨e, he, hpos, rfl⟩
    have hmax : ∀ y ∈ contentScores (pyLower text),
        y ≠ (e.1, contentScore (pyLower text) e.2) →
        y.2 < contentScore (pyLower text) e.2 := by
      intro y hy hne
      obtain ⟨e', he', _, rfl⟩ := (mem_contentScores _ _).mp hy
      by_cases hname : e'.1 = e.1
      · exact absurd (by rw [doc_type_entry_unique he' he hname]) hne
      · exact hstrict e' he' hname
    rcases hsc : contentScores (pyLower text) with _ | ⟨x, xs⟩
    · rw [hsc] at hzmem
      cases hzmem
    · rw [hsc] at hzmem hmax
      have hfold := foldl_pickMax_eq (e.1, contentScore (pyLower text) e.2) xs x
        (List.mem_cons.mp hzmem)
        (fun y hy => hmax y (List.mem_cons_of_mem _ hy))
        (hmax x (List.mem_cons_self _ _))
      exact congrArg Prod.fst hfold

/-- C4 witness: with filename "notes.pdf" (no filename pattern matches),
the text "workshop training exercise" scores 3 for workshop and 0 for
every other category, so the argmax "workshop" is returned; the empty
text scores zero everywhere and falls back to "document". -/
theorem c4_content_argmax_witness :
    classify_document_type (("workshop training exercise").data) (("notes.pdf").data)
      = "workshop" ∧
    classify_document_type (("").data) (("notes.pdf").data) = "document" :=
  ⟨(c4_content_argmax _ _ (by decide)).2 (DOC_TYPE_PATTERNS.get ⟨2, by decide⟩)
      (List.get_mem _ _ _) (by decide),
   (c4_content_argmax _ _ (by decide)).1 (by decide)⟩

/-- C7: the suggested title is the embedded document-info title when
present and non-empty; otherwise the first non-empty line of page one
when shorter than 100 characters; otherwise the filename stem with '_'
and '-' turned into spaces, title-cased. -/
theorem c7_title_fallback (mt : Option (List Char)) (pages : List (List Char))
    (stem : List Char) :
    (∀ t, mt = some t → t ≠ [] → suggested_title mt pages stem = t) ∧
    ((mt = none ∨ mt = some []) →
      ∀ p ps l ls, pages = p :: ps → pageLines p = l :: ls → l.length < 100 →
        suggested_title mt pages stem = l) ∧
    ((mt = none ∨ mt = some []) →
      (pages = [] ∨ (∃ p ps, pages = p :: ps ∧ pageLines p = []) ∨
        (∃ p ps l ls, pages = p :: ps ∧ pageLines p = l :: ls ∧ 100 ≤ l.length)) →
      suggested_title mt pages stem = stemTitle stem) := by
  refine ⟨?_, ?_, ?_⟩
  · rintro t rfl ht
    have h1 : t.isEmpty = false := by simpa using ht
    simp only [suggested_title, extract_title_from_pdf, h1, Bool.false_eq_true, if_false]
  · rintro hmt p ps l ls rfl hpl hlen
    have hfp : firstPageTitle (p :: ps) = some l := by
      simp only [firstPageTitle, hpl]
      exact if_pos hlen
    have hne : l.isEmpty = false := pageLines_head_not_empty p l ls hpl
    rcases hmt with rfl | rfl <;>
      simp only [suggested_title, extract_title_from_pdf, List.isEmpty_nil, if_true, hfp,
        hne, Bool.false_eq_true, if_false]
  · rintro hmt hcase
    have hfp : firstPageTitle pages = none := by
      rcases hcase with rfl | ⟨p, ps, rfl, hpl⟩ | ⟨p, ps, l, ls, rfl, hpl, hlen⟩
      · rfl
      · simp only [firstPageTitle, hpl]
      · simp only [firstPageTitle, hpl]
        exact if_neg (by omega)
    rcases hmt with rfl | rfl <;>
      simp only [suggested_title, extract_title_from_pdf, List.isEmpty_nil, if_true, hfp]

/-- C7 witness: each of the three fallback stages at a concrete input. -/
theorem c7_title_fallback_witness :
    suggested_title (some (("Doc Title").data)) [("X").data] (("f").data) = ("Doc Title").data ∧
    suggested_title none [("  \nHello World\nmore").data] (("f").data) = ("Hello World").data ∧
    suggested_title (some []) [] (("my_file-name").data) = stemTitle (("my_file-name").data) :=
  ⟨(c7_title_fallback _ _ _).1 _ rfl (by decide),
   (c7_title_fallback _ _ _).2.1 (Or.inl rfl) (("  \nHello World\nmore").data) []
     (("Hello World").data) [("more").data] rfl (by decide) (by decide),
   (c7_title_fallback _ _ _).2.2 (Or.inr rfl) (Or.inl rfl)⟩

/-- C2 counterexample: `classify_document_type` does not classify the
underscore-joined filename "Lecture_01_Introduction.pdf" (with empty body
text) as "lecture" — `\blecture\b` cannot match before '_', a word
character, so no filename pattern matches at all. -/
theorem c2_underscore_filename_not_lecture :
    classify_document_type (("").data) (("Lecture_01_Introduction.pdf").data) ≠ "lecture" := by
  decide

/-- C2 amended: a filename whose keyword is delimited by non-word
characters, such as "Lecture 01 Introduction.pdf", classifies as
"lecture" by the filename match alone (for every body text, so content
scoring is never consulted); the original underscore-joined filename
falls through to content scoring and yields the fallback "document" on
empty text. -/
theorem c2_filename_match_wins :
    (∀ text : List Char,
      classify_document_type text (("Lecture 01 Introduction.pdf").data) = "lecture") ∧
    classify_document_type (("").data) (("Lecture_01_Introduction.pdf").data) = "document" := by
  constructor
  · intro text
    rfl
  · decide

/-- C1: the spec's scenario expects `is_heading` true and level 3 for
"1.1 Background Methods"; the code does flag the line as a heading but
returns level 2 — its single-digit branch fires because the character
after the leading '1' is '.', not a digit, so the multi-digit branch
commented "like 1.1 = H3" is unreachable. -/
theorem c1_level_of_multidigit_line :
    detect_heading_heuristic (("1.1 Background Methods").data) = true ∧
    estimate_heading_level (("1.1 Background Methods").data) [] = 2 := by
  constructor <;> decide

/-- C3: every line longer than 100 characters, and every line ending in
'.' or ',', is rejected by `detect_heading_heuristic`; the punctuation
rejection precedes the all-caps acceptance. -/
theorem c3_reject_long_or_punctuated (text : List Char)
    (h : text.length > 100 ∨ text.getLast? = some '.' ∨ text.getLast? = some ',') :
    detect_heading_heuristic text = false :=
  detect_heading_reject text h

/-- C3 witness: a four-character all-caps line ending in '.' is rejected,
and so is a 101-character line. -/
theorem c3_reject_long_or_punctuated_witness :
    detect_heading_heuristic (("ABC.").data) = false ∧
    detect_heading_heuristic (List.replicate 101 'a') = false :=
  ⟨c3_reject_long_or_punctuated _ (Or.inr (Or.inl (by decide))),
   c3_reject_long_or_punctuated _ (Or.inl (by simp))⟩

/-- C5: `detect_language` returns exactly ("en", [("en", 1.0)]) for every
text shorter than 10 characters and whenever the wrapped `langdetect`
call raises, instead of propagating an error. -/
theorem c5_detect_language_default (oracle : Except Unit (String × List (String × ℚ)))
    (text : List Char) (h : text.length < 10 ∨ oracle = .error ()) :
    detect_language oracle text = ("en", [("en", (1 : ℚ))]) := by
  unfold detect_language
  rcases h with h | h
  · rw [if_pos]
    have := pyStrip_length_le text
    simp only [Bool.or_eq_true, decide_eq_true_eq]
    right
    omega
  · by_cases hc : (text.isEmpty || decide ((pyStrip text).length < 10)) = true
    · rw [if_pos hc]
    · rw [if_neg hc, h]

/-- C5 witness: the default is returned for the 2-character text "hi" and
for a failing detector on a long text. -/
theorem c5_detect_language_default_witness :
    detect_language (Except.ok ("sv", [("sv", (1 : ℚ))])) (("hi").data)
      = ("en", [("en", (1 : ℚ))]) ∧
    detect_language (Except.error ()) (("this text is long enough for detection").data)
      = ("en", [("en", (1 : ℚ))]) :=
  ⟨c5_detect_language_default _ _ (Or.inl (by decide)),
   c5_detect_language_default _ _ (Or.inr rfl)⟩

/-- C6: `estimate_heading_level` always lies in [1,6], and hence every
heading record produced by automatic detection carries a level in [1,6]. -/
theorem c6_level_in_range :
    (∀ (line : List Char) (all_lines : List (List Char)),
      1 ≤ estimate_heading_level line all_lines ∧ estimate_heading_level line all_lines ≤ 6) ∧
    (∀ (pages : List (List Char)) (h : Heading),
      h ∈ identify_headings (extract_text_blocks pages) → 1 ≤ h.level ∧ h.level ≤ 6) :=
  ⟨estimate_heading_level_range, identify_headings_level⟩

/-- C6 witness: the single line "INTRODUCTION" yields the heading record
(page 1, level 1, block 1), whose level is in range. -/
theorem c6_level_in_range_witness :
    1 ≤ (Heading.mk 1 (("INTRODUCTION").data) 1 1).level ∧
    (Heading.mk 1 (("INTRODUCTION").data) 1 1).level ≤ 6 :=
  c6_level_in_range.2 [("INTRODUCTION").data] (Heading.mk 1 (("INTRODUCTION").data) 1 1)
    (by decide)

/-- C9: `estimate_heading_level` only ever returns 1, 2, 3 or 4; the
automatic detector never produces level 5 or 6. -/
theorem c9_level_only_1_to_4 (line : List Char) (all_lines : List (List Char)) :
    estimate_heading_level line all_lines = 1 ∨ estimate_heading_level line all_lines = 2 ∨
    estimate_heading_level line all_lines = 3 ∨ estimate_heading_level line all_lines = 4 :=
  estimate_heading_level_cases line all_lines

/-- C10: the tag list of `generate_content_tags` always starts with the
document type followed by the format tag ("slides" or "text-document"),
so it has at least two entries and the comma-joined keywords field is
never empty. -/
theorem c10_tags_shape (text dt : List Char) (s : Bool) :
    (generate_content_tags text dt s).take 2
      = [dt, if s then ("slides").data else ("text-document").data] ∧
    2 ≤ (generate_content_tags text dt s).length ∧
    pyJoin ((", ").data) (generate_content_tags text dt s) ≠ [] := by
  obtain ⟨rest, hr⟩ := generate_content_tags_cons text dt s
  rw [hr]
  refine ⟨rfl, by simp, ?_⟩
  rw [pyJoin_cons_cons]
  simp

/-! ## Helper lemmas: JSON round trip -/

theorem digitVal_digitCh : ∀ m, m < 10 → digitVal (digitCh m) = m := by decide

theorem digitCh_isDigit : ∀ m, m < 10 → (digitCh m).isDigit = true := by decide

theorem hexVal_hexCh : ∀ m, m < 16 → hexVal (hexCh m) = some m := by decide

theorem jsonWs_false_of_isDigit {c : Char} (h : c.isDigit = true) : jsonWs c = false := by
  cases hw : jsonWs c
  · rfl
  · exfalso
    simp only [jsonWs, Bool.or_eq_true, decide_eq_true_eq] at hw
    rcases hw with ((rfl | rfl) | rfl) | rfl <;> exact absurd h (by decide)

theorem natRepr_all_digit (n : Nat) : ∀ c ∈ natRepr n, c.isDigit = true := by
  unfold natRepr
  split
  · intro c hc
    simp only [List.mem_singleton] at hc
    subst hc
    decide
  · intro c hc
    rw [List.mem_reverse, List.mem_map] at hc
    obtain ⟨d, hd, rfl⟩ := hc
    exact digitCh_isDigit d (Nat.digits_lt_base (by norm_num) hd)

theorem natRepr_ne_nil (n : Nat) : natRepr n ≠ [] := by
  unfold natRepr
  split
  · simp
  · simp only [ne_eq, List.reverse_eq_nil_iff, List.map_eq_nil_iff]
    exact Nat.digits_ne_nil_iff_ne_zero.mpr (by assumption)

theorem takeWhile_append_of_all (p : Char → Bool) :
    ∀ (a b : List Char), (∀ c ∈ a, p c = true) →
      (a ++ b).takeWhile p = a ++ b.takeWhile p := by
  intro a
  induction a with
  | nil => intro b _; simp
  | cons c cs ih =>
    intro b h
    simp only [List.cons_append, List.takeWhile_cons, h c (List.mem_cons_self _ _), if_true]
    rw [ih b (fun x hx => h x (List.mem_cons_of_mem _ hx))]

theorem dropWhile_append_of_all (p : Char → Bool) :
    ∀ (a b : List Char), (∀ c ∈ a, p c = true) →
      (a ++ b).dropWhile p = b.dropWhile p := by
  intro a
  induction a with
  | nil => intro b _; simp
  | cons c cs ih =>
    intro b h
    simp only [List.cons_append, List.dropWhile_cons, h c (List.mem_cons_self _ _), if_true]
    exact ih b (fun x hx => h x (List.mem_cons_of_mem _ hx))

theorem takeWhile_eq_nil_of_head {p : Char → Bool} {b : List Char} (h : headIs p b = false) :
    b.takeWhile p = [] := by
  cases b with
  | nil => rfl
  | cons c cs =>
    simp only [headIs] at h
    simp [List.takeWhile_cons, h]

theorem dropWhile_eq_self_of_head {p : Char → Bool} {b : List Char} (h : headIs p b = false) :
    b.dropWhile p = b := by
  cases b with
  | nil => rfl
  | cons c cs =>
    simp only [headIs] at h
    simp [List.dropWhile_cons, h]

theorem foldr_digits (L : List Nat) (h : ∀ d ∈ L, d < 10) :
    L.foldr (fun d a => 10 * a + digitVal (digitCh d)) 0 = Nat.ofDigits 10 L := by
  induction L with
  | nil => simp [Nat.ofDigits_nil]
  | cons d ds ih =>
    simp only [List.foldr_cons, ih (fun x hx => h x (List.mem_cons_of_mem _ hx)),
      Nat.ofDigits_cons, digitVal_digitCh d (h d (List.mem_cons_self _ _))]
    ring

theorem foldl_natRepr (n : Nat) :
    (natRepr n).foldl (fun a c => 10 * a + digitVal c) 0 = n := by
  unfold natRepr
  split
  · subst_vars
    decide
  · rw [List.foldl_reverse, List.foldr_map]
    have := foldr_digits (Nat.digits 10 n) (fun d hd => Nat.digits_lt_base (by norm_num) hd)
    simpa [Nat.ofDigits_digits] using this

theorem parseNum_natRepr (n : Nat) (rest : List Char) (h : headIs Char.isDigit rest = false) :
    parseNum (natRepr n ++ rest) = (n, rest) := by
  unfold parseNum
  rw [takeWhile_append_of_all _ _ _ (natRepr_all_digit n),
    dropWhile_append_of_all _ _ _ (natRepr_all_digit n),
    takeWhile_eq_nil_of_head h, dropWhile_eq_self_of_head h, List.append_nil,
    foldl_natRepr]

theorem skipWs_cons (c : Char) (s : List Char) :
    skipWs (c :: s) = if jsonWs c then skipWs s else c :: s :=
  List.dropWhile_cons

theorem skipWs_append_of_all (a b : List Char) (h : ∀ c ∈ a, jsonWs c = true) :
    skipWs (a ++ b) = skipWs b :=
  dropWhile_append_of_all _ a b h

theorem skipWs_spaces (n : Nat) (b : List Char) : skipWs (spaces n ++ b) = skipWs b :=
  skipWs_append_of_all _ b (fun c hc => by
    rw [(List.eq_of_mem_replicate hc : c = ' ')]
    rfl)

theorem skipWs_skipWs (s : List Char) : skipWs (skipWs s) = skipWs s := by
  induction s with
  | nil => rfl
  | cons c cs ih =>
    rw [skipWs_cons]
    by_cases h : jsonWs c = true
    · rw [if_pos h, ih]
    · rw [if_neg h, skipWs_cons, if_neg h]

theorem parseStrBody_escChar (c : Char) (t : List Char) :
    parseStrBody (escChar c ++ t) = (parseStrBody t).map (fun p => (c :: p.1, p.2)) := by
  unfold escChar
  split_ifs with h1 h2 h3 h4 h5 h6 h7 h8
  · subst h1
    rw [parseStrBody.eq_def]
    simp
  · subst h2
    rw [parseStrBody.eq_def]
    simp
  · subst h3
    rw [parseStrBody.eq_def]
    simp
  · subst h4
    rw [parseStrBody.eq_def]
    simp
  · subst h5
    rw [parseStrBody.eq_def]
    simp
  · have hc : c = Char.ofNat 8 := by rw [← h6, Char.ofNat_toNat]
    rw [parseStrBody.eq_def]
    simp
    rw [← hc]
  · have hc : c = Char.ofNat 12 := by rw [← h7, Char.ofNat_toNat]
    rw [parseStrBody.eq_def]
    simp
    rw [← hc]
  · -- the \u00XY case for the remaining control characters
    have hdiv : c.toNat / 16 < 16 := by omega
    have hmod : c.toNat % 16 < 16 := Nat.mod_lt _ (by norm_num)
    rw [List.cons_append, List.cons_append, List.cons_append, List.cons_append,
      List.cons_append, List.cons_append, List.nil_append, parseStrBody.eq_def]
    simp [hexVal_hexCh _ hdiv, hexVal_hexCh _ hmod]
    rw [show hexVal '0' = some 0 from rfl]
    simp
    rw [show (c.toNat / 16 * 16 + c.toNat % 16) = c.toNat by omega, Char.ofNat_toNat]
  · -- plain character: not a quote, not a backslash
    rw [List.cons_append, List.nil_append, parseStrBody.eq_def]
    simp [h1, h2]

theorem parseStrBody_escStr (s : List Char) : ∀ rest : List Char,
    parseStrBody (escStr s ++ '"' :: rest) = some (s, rest) := by
  induction s with
  | nil =>
    intro rest
    simp only [escStr, List.nil_append]
    rw [parseStrBody.eq_def]
    simp
  | cons c cs ih =>
    intro rest
    simp only [escStr, List.append_assoc]
    rw [parseStrBody_escChar, ih rest]
    rfl

theorem ne_quote_of_isDigit {c : Char} (h : c.isDigit = true) : ¬c = '"' :=
  fun hc => by subst hc; exact absurd h (by decide)

theorem ne_lbracket_of_isDigit {c : Char} (h : c.isDigit = true) : ¬c = '[' :=
  fun hc => by subst hc; exact absurd h (by decide)

theorem ne_lbrace_of_isDigit {c : Char} (h : c.isDigit = true) : ¬c = '\x7b' :=
  fun hc => by subst hc; exact absurd h (by decide)

theorem parseVal_num_rt (g n : Nat) (rest : List Char) (h : headIs Char.isDigit rest = false) :
    parseVal (g + 1) (natRepr n ++ rest) = some (Json.num n, rest) := by
  obtain ⟨d, ds, hnr⟩ : ∃ d ds, natRepr n = d :: ds := by
    cases hh : natRepr n with
    | nil => exact absurd hh (natRepr_ne_nil n)
    | cons d ds => exact ⟨d, ds, rfl⟩
  have hd : d.isDigit = true := natRepr_all_digit n d (hnr ▸ List.mem_cons_self d ds)
  rw [hnr, List.cons_append]
  simp only [parseVal]
  have hsw : skipWs (d :: (ds ++ rest)) = d :: (ds ++ rest) := by
    simp [skipWs, List.dropWhile_cons, jsonWs_false_of_isDigit hd]
  rw [hsw]
  simp only [if_neg (ne_quote_of_isDigit hd), if_neg (ne_lbracket_of_isDigit hd),
    if_neg (ne_lbrace_of_isDigit hd), if_pos hd]
  rw [show (d :: (ds ++ rest)) = natRepr n ++ rest by rw [hnr, List.cons_append],
    parseNum_natRepr n rest h]

theorem skipWs_cons_not {c : Char} (hc : jsonWs c = false) (s : List Char) :
    skipWs (c :: s) = c :: s := by
  simp [skipWs, List.dropWhile_cons, hc]

theorem skipWs_cons_ws {c : Char} (hc : jsonWs c = true) (s : List Char) :
    skipWs (c :: s) = skipWs s := by
  simp [skipWs, List.dropWhile_cons, hc]

theorem parseVal_str_rt (g : Nat) (s rest : List Char) :
    parseVal (g + 1) ('"' :: (escStr s ++ '"' :: rest)) = some (Json.str s, rest) := by
  simp only [parseVal]
  rw [skipWs_cons_not (by decide)]
  dsimp only
  rw [if_pos rfl, parseStrBody_escStr]
  rfl

theorem skipWs_eq_imp_parseVal {s s' : List Char} (h : skipWs s = skipWs s') :
    ∀ g, parseVal g s = parseVal g s' := by
  intro g
  cases g with
  | zero => rfl
  | succ g =>
    simp only [parseVal]
    rw [h]

theorem parseVal_skipWs (g : Nat) (s : List Char) : parseVal g (skipWs s) = parseVal g s :=
  skipWs_eq_imp_parseVal (skipWs_skipWs s) g

theorem parseVal_cons_ws {c : Char} (hc : jsonWs c = true) (g : Nat) (s : List Char) :
    parseVal g (c :: s) = parseVal g s :=
  skipWs_eq_imp_parseVal (by simp [skipWs, List.dropWhile_cons, hc]) g

theorem parseVal_spaces (n g : Nat) (s : List Char) :
    parseVal g (spaces n ++ s) = parseVal g s :=
  skipWs_eq_imp_parseVal (skipWs_spaces n s) g

theorem skipWs_eq_imp_parseItems {s s' : List Char} (h : skipWs s = skipWs s') :
    ∀ g, parseItems g s = parseItems g s' := by
  intro g
  cases g with
  | zero => rfl
  | succ g =>
    simp only [parseItems]
    rw [skipWs_eq_imp_parseVal h g]

theorem parseItems_skipWs (g : Nat) (s : List Char) : parseItems g (skipWs s) = parseItems g s :=
  skipWs_eq_imp_parseItems (skipWs_skipWs s) g

theorem parseItems_cons_ws {c : Char} (hc : jsonWs c = true) (g : Nat) (s : List Char) :
    parseItems g (c :: s) = parseItems g s :=
  skipWs_eq_imp_parseItems (by simp [skipWs, List.dropWhile_cons, hc]) g

theorem skipWs_eq_imp_parsePairs {s s' : List Char} (h : skipWs s = skipWs s') :
    ∀ g, parsePairs g s = parsePairs g s' := by
  intro g
  cases g with
  | zero => rfl
  | succ g =>
    simp only [parsePairs]
    rw [h]

theorem parsePairs_cons_ws {c : Char} (hc : jsonWs c = true) (g : Nat) (s : List Char) :
    parsePairs g (c :: s) = parsePairs g s :=
  skipWs_eq_imp_parsePairs (by simp [skipWs, List.dropWhile_cons, hc]) g

theorem parsePairs_spaces (n g : Nat) (s : List Char) :
    parsePairs g (spaces n ++ s) = parsePairs g s :=
  skipWs_eq_imp_parsePairs (skipWs_spaces n s) g

theorem parseItems_spaces (n g : Nat) (s : List Char) :
    parseItems g (spaces n ++ s) = parseItems g s :=
  skipWs_eq_imp_parseItems (skipWs_spaces n s) g

/-- Parsing one `"key": <nat>` pair followed by `",\n"` and further
pairs. -/
theorem parsePairs_num_more (g : Nat) (k : List Char) (n : Nat) (cont : List Char) :
    parsePairs (g + 2) ('"' :: (escStr k ++ ('"' :: ':' :: ' ' ::
        (natRepr n ++ (',' :: '\n' :: cont)))))
      = (parsePairs (g + 1) cont).map (fun p => ((k, Json.num n) :: p.1, p.2)) := by
  rw [parsePairs.eq_2]
  rw [skipWs_cons_not (by decide)]
  dsimp only
  rw [if_pos rfl, parseStrBody_escStr]
  dsimp only
  rw [skipWs_cons_not (by decide)]
  dsimp only
  rw [if_pos rfl]
  rw [parseVal_cons_ws (by decide), parseVal_num_rt g n _ (by rfl)]
  dsimp only
  rw [skipWs_cons_not (by decide)]
  dsimp only
  rw [if_pos rfl]
  rw [parsePairs_cons_ws (by decide)]

/-- Parsing one `"key": "<string>"` pair followed by `",\n"` and further
pairs. -/
theorem parsePairs_str_more (g : Nat) (k : List Char) (sv : List Char) (cont : List Char) :
    parsePairs (g + 2) ('"' :: (escStr k ++ ('"' :: ':' :: ' ' ::
        ('"' :: (escStr sv ++ ('"' :: (',' :: '\n' :: cont)))))))
      = (parsePairs (g + 1) cont).map (fun p => ((k, Json.str sv) :: p.1, p.2)) := by
  rw [parsePairs.eq_2]
  rw [skipWs_cons_not (by decide)]
  dsimp only
  rw [if_pos rfl, parseStrBody_escStr]
  dsimp only
  rw [skipWs_cons_not (by decide)]
  dsimp only
  rw [if_pos rfl]
  rw [parseVal_cons_ws (by decide), parseVal_str_rt g sv _]
  dsimp only
  rw [skipWs_cons_not (by decide)]
  dsimp only
  rw [if_pos rfl]
  rw [parsePairs_cons_ws (by decide)]

/-- Parsing the final `"key": <nat>` pair, the newline-indented closing
brace and the object end. -/
theorem parsePairs_num_last (g : Nat) (k : List Char) (n : Nat) (rest : List Char) :
    parsePairs (g + 2) ('"' :: (escStr k ++ ('"' :: ':' :: ' ' ::
        (natRepr n ++ ('\n' :: (spaces 2 ++ '\x7d' :: rest))))))
      = some ([(k, Json.num n)], rest) := by
  rw [parsePairs.eq_2]
  rw [skipWs_cons_not (by decide)]
  dsimp only
  rw [if_pos rfl, parseStrBody_escStr]
  dsimp only
  rw [skipWs_cons_not (by decide)]
  dsimp only
  rw [if_pos rfl]
  rw [parseVal_cons_ws (by decide), parseVal_num_rt g n _ (by rfl)]
  dsimp only
  rw [skipWs_cons_ws (by decide), skipWs_spaces, skipWs_cons_not (by decide)]
  dsimp only
  rw [if_neg (by decide), if_pos rfl]

/-- Parsing one dumped heading-record object at array nesting level 1. -/
theorem parseVal_hrec_rt (g : Nat) (h : HRec) (rest : List Char) :
    parseVal (g + 5) (dumpJson 1 (hrecToJson h) ++ rest) = some (hrecToJson h, rest) := by
  simp only [hrecToJson, dumpJson, dumpPairs, List.append_assoc, List.cons_append,
    List.nil_append]
  simp only [parseVal]
  rw [skipWs_cons_not (by decide)]
  dsimp only
  rw [if_neg (by decide), if_neg (by decide), if_pos rfl]
  rw [skipWs_cons_ws (by decide), skipWs_spaces, skipWs_cons_not (by decide)]
  dsimp only
  rw [if_neg (by decide)]
  rw [show (g + 4) = (g + 2) + 2 from rfl, parsePairs_num_more]
  rw [parsePairs_spaces]
  rw [show (g + 2) + 1 = (g + 1) + 2 from rfl, parsePairs_str_more]
  rw [parsePairs_spaces]
  rw [show (g + 1) + 1 = g + 2 from rfl, parsePairs_num_last]
  rfl

/-- Parsing the item list of a dumped non-empty heading array: one record
per line, comma separated, closed by `"\n]"`. -/
theorem parseItems_rt (xs : List HRec) : ∀ (x : HRec) (g : Nat) (rest : List Char),
    parseItems (g + (xs.length + 6))
        (dumpItems 1 (hrecToJson x) (xs.map hrecToJson) ++ '\n' :: ']' :: rest)
      = some (hrecToJson x :: xs.map hrecToJson, rest) := by
  induction xs with
  | nil =>
    intro x g rest
    simp only [List.map_nil, dumpItems, List.length_nil, List.append_assoc]
    rw [parseItems_spaces]
    rw [parseItems.eq_2]
    rw [parseVal_hrec_rt]
    dsimp only
    rw [skipWs_cons_ws (by decide), skipWs_cons_not (by decide)]
    dsimp only
    rw [if_neg (by decide), if_pos rfl]
  | cons y ys ih =>
    intro x g rest
    simp only [List.map_cons, dumpItems, List.length_cons, List.append_assoc,
      List.cons_append]
    rw [parseItems_spaces]
    rw [show g + (ys.length + 1 + 6) = (g + ys.length + 6) + 1 by omega]
    rw [parseItems.eq_2]
    rw [show g + ys.length + 6 = (g + ys.length + 1) + 5 by omega, parseVal_hrec_rt]
    dsimp only
    rw [skipWs_cons_not (by decide)]
    dsimp only
    rw [if_pos rfl]
    rw [parseItems_cons_ws (by decide)]
    rw [show (g + ys.length + 1) + 5 = g + (ys.length + 6) by omega, ih y g rest]
    rfl

/-- The dumped item list of a heading array starts, after whitespace, with
the opening brace of its first record. -/
theorem skipWs_dumpItems_head (x : HRec) (xsj : List Json) (t : List Char) :
    ∃ Z, skipWs (dumpItems 1 (hrecToJson x) xsj ++ t) = '\x7b' :: Z := by
  cases xsj with
  | nil =>
    simp only [dumpItems, hrecToJson, dumpJson, List.append_assoc, List.cons_append]
    rw [skipWs_spaces, skipWs_cons_not (by decide)]
    exact ⟨_, rfl⟩
  | cons q qs =>
    simp only [dumpItems, hrecToJson, dumpJson, List.append_assoc, List.cons_append]
    rw [skipWs_spaces, skipWs_cons_not (by decide)]
    exact ⟨_, rfl⟩

/-- Lower bound on the dumped length of an item list: each item takes at
least its two-space indent, and a separator when one follows. -/
theorem dumpItems_length_ge (xsj : List Json) : ∀ x : Json,
    xsj.length + 2 ≤ (dumpItems 1 x xsj).length := by
  induction xsj with
  | nil =>
    intro x
    simp only [dumpItems, List.length_append, List.length_nil, spaces,
      List.length_replicate]
    omega
  | cons q qs ih =>
    intro x
    have := ih q
    simp only [dumpItems, List.length_append, List.length_cons, spaces,
      List.length_replicate] at *
    omega

/-- C8: dumping any ordered list of heading records with
`json.dump(..., indent=2, ensure_ascii=False)` and reading the file back
with `json.load` returns exactly the same ordered record sequence. -/
theorem c8_headings_roundtrip (l : List HRec) :
    load_manual_headings (export_headings l) = some (Json.arr (l.map hrecToJson)) := by
  cases l with
  | nil =>
    unfold export_headings load_manual_headings jsonParse
    simp only [List.map_nil, dumpJson]
    rfl
  | cons x xs =>
    unfold export_headings load_manual_headings jsonParse
    simp only [List.map_cons, dumpJson, Nat.mul_zero, spaces, List.replicate,
      List.nil_append, List.append_assoc, List.cons_append]
    rw [parseVal.eq_2]
    rw [skipWs_cons_not (by decide)]
    dsimp only
    rw [if_neg (by decide), if_pos rfl]
    rw [skipWs_cons_ws (by decide)]
    obtain ⟨Z, hZ⟩ := skipWs_dumpItems_head x (List.map hrecToJson xs) ('\n' :: ']' :: [])
    rw [hZ]
    dsimp only
    rw [if_neg (by decide)]
    rw [← hZ, parseItems_skipWs]
    have hb := dumpItems_length_ge (List.map hrecToJson xs) (hrecToJson x)
    rw [List.length_map] at hb
    obtain ⟨g, hg⟩ : ∃ g,
        ('[' :: '\n' ::
            (dumpItems 1 (hrecToJson x) (List.map hrecToJson xs) ++ '\n' :: ']' :: [])).length
          = g + (xs.length + 6) := by
      refine ⟨(dumpItems 1 (hrecToJson x) (List.map hrecToJson xs)).length - (xs.length + 2), ?_⟩
      simp only [List.length_cons, List.length_append, List.length_nil]
      omega
    rw [hg, parseItems_rt xs x g []]
    rfl

end PdfToolkit
